import Mathlib

/-!
A verification development for the document-extraction agent
(`src/agent`): the personal-data and tabular-data extractors, the
extraction pipeline, and the output manager's aggregation of personal
data.  Python functions are shallowly embedded as executable Lean
definitions; floats carrying confidence scores are modelled as rationals
(the scores in play are exact decimal fractions), strings as Lean
`String`/`List Char`.
-/

namespace Agent

/-! ## Character and string utilities shared by the embeddings

Python string semantics used by the code: `str.strip` / `\s` treat the
six ASCII whitespace characters as whitespace; `str.lower` lowercases
(the data here is ASCII); `a in b` is substring containment. -/

/-- The characters Python's `str.strip` and the regex class `\s` treat as
whitespace (ASCII range, which covers the data handled here). -/
def isPySpace (c : Char) : Bool :=
  c = ' ' || c = '\t' || c = '\n' || c = '\r' || c = '\x0b' || c = '\x0c'

/-- Python `str.strip()`: drop leading and trailing whitespace. -/
def pyStrip (l : List Char) : List Char :=
  ((l.dropWhile isPySpace).reverse.dropWhile isPySpace).reverse

/-- Python `re.sub(r'\s+', ' ', ·)`: every maximal run of whitespace becomes a
single space.  The boolean argument records whether the previous kept
character was produced from a whitespace run. -/
def collapseWsAux : Bool → List Char → List Char
  | _, [] => []
  | prevSpace, c :: cs =>
    if isPySpace c then
      if prevSpace then collapseWsAux true cs
      else ' ' :: collapseWsAux true cs
    else c :: collapseWsAux false cs

/-- Python `re.sub(r'\s+', ' ', value.strip())` as used by `_clean_value`. -/
def collapseWs (l : List Char) : List Char :=
  collapseWsAux false (pyStrip l)

/-- Case-sensitive `startswith` on character lists. -/
def startsWithList : List Char → List Char → Bool
  | [], _ => true
  | _ :: _, [] => false
  | p :: ps, c :: cs => p = c && startsWithList ps cs

/-- Python substring containment `p in s` (case-sensitive). -/
def containsList (p : List Char) : List Char → Bool
  | [] => p.isEmpty
  | c :: cs => startsWithList p (c :: cs) || containsList p cs

/-- Case-insensitive `startswith`, for `re.IGNORECASE` literals. -/
def startsWithCI : List Char → List Char → Bool
  | [], _ => true
  | _ :: _, [] => false
  | p :: ps, c :: cs => p.toLower = c.toLower && startsWithCI ps cs

/-- Python `str.lower` (the data here is ASCII), defined directly over
the character list. -/
def lowerString (s : String) : String :=
  String.mk (s.toList.map Char.toLower)

/-- Python `max(a, b)` on numbers (returns the first argument on ties),
written as an explicit conditional so that the kernel can evaluate it. -/
def pyMax (a b : ℚ) : ℚ := if b ≤ a then a else b

/-- Python `min(a, b)` on numbers (returns the first argument on ties). -/
def pyMin (a b : ℚ) : ℚ := if a ≤ b then a else b

/-- Python `str.split('\n')` (no run collapsing; `"" ↦ [""]`). -/
def splitLinesAux (cur : List Char) : List Char → List (List Char)
  | [] => [cur.reverse]
  | c :: cs => if c = '\n' then cur.reverse :: splitLinesAux [] cs
               else splitLinesAux (c :: cur) cs

/-- Python `document_content.split('\n')`. -/
def splitLines (l : List Char) : List (List Char) := splitLinesAux [] l

/-! ## Personal-data extractor (`personal_data_extractor.py`) -/

/-- Source `PersonalDataExtractor.STANDARD_FIELDS`: the fixed 12-field schema. -/
def STANDARD_FIELDS : List String :=
  ["First name", "Last name", "Middle name", "Date of birth",
   "Social Security Number", "Phone number", "Email address",
   "Home address", "Employment status", "Annual income",
   "Employer name", "Job title"]

/-- The literal list `["not found", "n/a", "none", "null", ""]` that
`_clean_value` compares the lowercased raw value against. -/
def NON_VALUES : List String := ["not found", "n/a", "none", "null", ""]

/-- Source `PersonalDataExtractor._clean_value`.  The non-value test runs on the
raw value (Python: `if not value or value.lower() in [...]`), before the
whitespace collapsing and before one layer of wrapping double quotes is
removed (`value[1:-1]`, i.e. drop the first and the last character). -/
def cleanValue (value : String) : String :=
  if value = "" || decide (lowerString value ∈ NON_VALUES) then "Not found"
  else
    let v := collapseWs value.toList
    if v.head? = some '"' && v.getLast? = some '"' then
      String.mk (v.drop 1).dropLast
    else String.mk v

/-! Validation regexes of `_calculate_basic_confidence`.  The character
classes of each pattern are disjoint from their neighbours, so the
greedy matches below are the exact Python `re` semantics. -/

/-- Consume exactly `n` digits. -/
def takeDigits : Nat → List Char → Option (List Char)
  | 0, l => some l
  | _ + 1, [] => none
  | n + 1, c :: cs => if c.isDigit then takeDigits n cs else none

/-- Consume an optional `-` (the `-?` of the SSN pattern). -/
def dropOptDash : List Char → List Char
  | '-' :: cs => cs
  | l => l

/-- Anchor `$` of `re` without MULTILINE: end of string or just before a final
newline. -/
def atDollar : List Char → Bool
  | [] => true
  | ['\n'] => true
  | _ => false

/-- Test whether `re.search(r'^\d{3}-?\d{2}-?\d{4}$', value)` succeeds. -/
def ssnMatch (l : List Char) : Bool :=
  match takeDigits 3 l with
  | none => false
  | some l =>
    match takeDigits 2 (dropOptDash l) with
    | none => false
    | some l =>
      match takeDigits 4 (dropOptDash l) with
      | none => false
      | some l => atDollar l

/-- The class `[\d\s\-\(\)]` of the phone pattern. -/
def phoneClass (c : Char) : Bool :=
  c.isDigit || isPySpace c || c = '-' || c = '(' || c = ')'

/-- Test whether `re.search(r'^[\+]?[\d\s\-\(\)]{10,}$', value)` succeeds (the class
contains `\n`, so the body must cover the whole remainder). -/
def phoneMatch (l : List Char) : Bool :=
  let rest := match l with
              | '+' :: cs => cs
              | cs => cs
  rest.all phoneClass && decide (10 ≤ rest.length)

/-- The local-part class `[a-zA-Z0-9._%+-]` of the email pattern. -/
def emailLocalClass (c : Char) : Bool :=
  c.isAlpha || c.isDigit || c = '.' || c = '_' || c = '%' || c = '+' || c = '-'

/-- The domain class `[a-zA-Z0-9.-]` of the email pattern. -/
def emailDomainClass (c : Char) : Bool :=
  c.isAlpha || c.isDigit || c = '.' || c = '-'

/-- Match `[a-zA-Z0-9.-]+\.[a-zA-Z]{2,}` against the whole tail: the
top-level label is the maximal alphabetic suffix, which must be at least
2 long and be preceded by a dot and a nonempty all-class domain part. -/
def emailDomainMatch (u : List Char) : Bool :=
  let r := u.reverse
  let revTop := r.takeWhile Char.isAlpha
  let rest := r.drop revTop.length
  decide (2 ≤ revTop.length) &&
    (match rest with
     | '.' :: d => !d.isEmpty && d.all emailDomainClass
     | _ => false)

/-- Test whether `re.search(r'^[a-zA-Z0-9._%+-]+@[a-zA-Z0-9.-]+\.[a-zA-Z]{2,}$', v)`
succeeds.  `@` is outside the local class, so the local part is the
maximal class run; a trailing newline is allowed by `$`. -/
def emailMatch (l : List Char) : Bool :=
  let localPart := l.takeWhile emailLocalClass
  let rest := l.drop localPart.length
  !localPart.isEmpty &&
    (match rest with
     | '@' :: t =>
       let u := match t.getLast? with
                | some '\n' => t.dropLast
                | _ => t
       emailDomainMatch u
     | _ => false)

/-- Try `\d{1,2}[\/\-]\d{1,2}[\/\-]\d{2,4}` anchored at this position:
the digit run before each separator must have length 1 or 2. -/
def dobAt (l : List Char) : Bool :=
  let d1 := l.takeWhile Char.isDigit
  (d1.length = 1 || d1.length = 2) &&
    (match l.drop d1.length with
     | c :: rest =>
       (c = '/' || c = '-') &&
         (let d2 := rest.takeWhile Char.isDigit
          (d2.length = 1 || d2.length = 2) &&
            (match rest.drop d2.length with
             | c2 :: rest2 =>
               (c2 = '/' || c2 = '-') &&
                 decide (2 ≤ (rest2.takeWhile Char.isDigit).length)
             | [] => false))
     | [] => false)

/-- Test whether `re.search(r'\d{1,2}[\/\-]\d{1,2}[\/\-]\d{2,4}', value)` succeeds:
the unanchored pattern matches at some position. -/
def dobSearch : List Char → Bool
  | [] => false
  | c :: cs => dobAt (c :: cs) || dobSearch cs

/-- Source `PersonalDataExtractor._calculate_basic_confidence`: pattern-based
score for the four validated fields, otherwise 0.7 for a non-blank
value; `"Not found"` scores 0.0. -/
def calculateBasicConfidence (field value : String) : ℚ :=
  if value = "Not found" then 0
  else if field = "Social Security Number" then
    (if ssnMatch value.toList then 0.8 else 0.5)
  else if field = "Phone number" then
    (if phoneMatch value.toList then 0.8 else 0.5)
  else if field = "Email address" then
    (if emailMatch value.toList then 0.8 else 0.5)
  else if field = "Date of birth" then
    (if dobSearch value.toList then 0.8 else 0.5)
  else if 0 < (pyStrip value.toList).length then 0.7
  else 0

/-- One value of the parsed response object `raw_data[field]`: either a
JSON object (its `"value"`/`"confidence"` members, each possibly
absent), or a bare value that the code stringifies. -/
inductive FieldData where
  | obj (value : Option String) (confidence : Option ℚ)
  | plain (value : String)
deriving DecidableEq, Repr

/-- Dictionary lookup `field in raw_data` / `raw_data[field]`; the parsed
JSON object is modelled as an association list with distinct keys. -/
def lookupField (raw : List (String × FieldData)) (field : String) :
    Option FieldData :=
  match raw.find? (fun p => p.1 = field) with
  | some p => some p.2
  | none => none

/-- One standardized output record of the personal-data extractor. -/
structure Record where
  field_name : String
  field_value : String
  confidence : ℚ
deriving DecidableEq, Repr

/-- Source `PersonalDataExtractor._format_extracted_data`: one record per
standard field, in schema order; the value is cleaned and the confidence
clamped into `[0, 1]`. -/
def formatExtractedData (raw : List (String × FieldData))
    (filename : String) : List Record :=
  STANDARD_FIELDS.map fun field =>
    let vc : String × ℚ :=
      match lookupField raw field with
      | some (.obj v c) => (v.getD "Not found", c.getD 0)
      | some (.plain s) => (s, calculateBasicConfidence field s)
      | none => ("Not found", 0)
    { field_name := field,
      field_value := cleanValue vc.1,
      confidence := pyMax 0 (pyMin 1 vc.2) }

/-- Source `PersonalDataExtractor._create_empty_records`: all-sentinel records
used on total extraction failure. -/
def createEmptyRecords (filename : String) : List Record :=
  STANDARD_FIELDS.map fun field =>
    { field_name := field, field_value := "Not found", confidence := 0 }

/-! The fallback parser's regex `rf'{field}[:\s]+([^\n]+)'` with
IGNORECASE.  After the literal, the greedy `[:\s]+` takes the maximal
colon/whitespace run `w`; if the next character exists and is not a
newline the group is the rest of that line; otherwise the engine gives
characters of `w` back one by one, so the group becomes the single
rightmost non-newline character of `w.tail` (the `[:\s]+` must keep at
least one character), if any. -/

/-- Colon or whitespace — the class `[:\s]`. -/
def isWsOrColon (c : Char) : Bool := c = ':' || isPySpace c

/-- Match the fallback pattern for `field` anchored at the start of
`text`; returns the captured group. -/
def matchFieldAt (field text : List Char) : Option (List Char) :=
  if startsWithCI field text then
    let rest := text.drop field.length
    let w := rest.takeWhile isWsOrColon
    let after := rest.drop w.length
    if w.isEmpty then none
    else
      match after with
      | c :: _ =>
        if c ≠ '\n' then some (after.takeWhile (fun d => d ≠ '\n'))
        else match (w.drop 1).reverse.find? (fun d => d ≠ '\n') with
             | some d => some [d]
             | none => none
      | [] =>
        match (w.drop 1).reverse.find? (fun d => d ≠ '\n') with
        | some d => some [d]
        | none => none
  else none

/-- Python `re.search` for the fallback pattern: leftmost matching position. -/
def searchFieldAux (field : List Char) : List Char → Option (List Char)
  | [] => none
  | c :: cs =>
    match matchFieldAt field (c :: cs) with
    | some g => some g
    | none => searchFieldAux field cs

/-- Source `PersonalDataExtractor._fallback_parse_response`: per standard field,
the stripped captured group with confidence 0.6, or the sentinel with
confidence 0.0. -/
def fallbackParseResponse (response_text : String) :
    List (String × FieldData) :=
  STANDARD_FIELDS.map fun field =>
    match searchFieldAux field.toList response_text.toList with
    | some g =>
      (field, .obj (some (String.mk (pyStrip g))) (some 0.6))
    | none => (field, .obj (some "Not found") (some 0))

/-- An `ExtractionResult` (`base_extractor.py`), specialised to the
extractor's record type; the claims do not touch `metadata`, which is
omitted. -/
structure ExtractionResult (α : Type) where
  data : List α
  extractor_type : String
  confidence : ℚ
deriving DecidableEq, Repr

/-- Source `PersonalDataExtractor.extract`.  `llmOutcome` is `.ok raw` when the
Claude call returned and its response parsed (by JSON or by the
fallback) to the object `raw`, and `.error e` when the call or any later
step raised; the overall confidence is `sum/len` of the record
confidences as in the source. -/
def personalExtract (llmOutcome : Except String (List (String × FieldData)))
    (filename : String) : ExtractionResult Record :=
  match llmOutcome with
  | .ok raw =>
    let records := formatExtractedData raw filename
    let confidences := records.map Record.confidence
    { data := records,
      extractor_type := "personal_data",
      confidence :=
        if confidences.isEmpty then 0
        else confidences.sum / confidences.length }
  | .error _ =>
    { data := createEmptyRecords filename,
      extractor_type := "personal_data",
      confidence := 0 }

/-- Source `PersonalDataExtractor.can_process`: some personal-data indicator is
a substring of the lowercased content. -/
def personalCanProcess (document_content : String) : Bool :=
  let indicators := ["name", "address", "phone", "email", "ssn",
    "social security", "date of birth", "dob", "employer", "income",
    "salary"]
  let lower := (lowerString document_content).toList
  indicators.any fun ind => containsList ind.toList lower

/-! ## Tabular-data extractor (`tabular_data_extractor.py`) -/

/-- Split a character list at every character satisfying `p` (Python
`str.split(sep)` keeps empty pieces). -/
def splitOnPred (p : Char → Bool) : List Char → List (List Char)
  | [] => [[]]
  | c :: cs =>
    if p c then [] :: splitOnPred p cs
    else match splitOnPred p cs with
         | [] => [[c]]
         | piece :: rest => (c :: piece) :: rest

/-- The regex class `\w` (ASCII range, which covers the data here). -/
def wordChar (c : Char) : Bool := c.isAlpha || c.isDigit || c = '_'

/-- Try `\w+\s{2,}\w+\s{2,}\w+` anchored at this position.  The classes
`\w` and `\s` are disjoint, so the greedy maximal runs are exact. -/
def alignedAt (l : List Char) : Bool :=
  let w1 := l.takeWhile wordChar
  !w1.isEmpty &&
    (let r1 := l.drop w1.length
     let s1 := r1.takeWhile isPySpace
     decide (2 ≤ s1.length) &&
       (let r2 := r1.drop s1.length
        let w2 := r2.takeWhile wordChar
        !w2.isEmpty &&
          (let r3 := r2.drop w2.length
           let s2 := r3.takeWhile isPySpace
           decide (2 ≤ s2.length) &&
             !((r3.drop s2.length).takeWhile wordChar).isEmpty)))

/-- Test whether `re.search(r'\w+\s{2,}\w+\s{2,}\w+', line)` succeeds. -/
def alignedSearch : List Char → Bool
  | [] => false
  | c :: cs => alignedAt (c :: cs) || alignedSearch cs

/-- Source `TabularDataExtractor.can_process`: at least 3 CSV-like lines among
the first 20, or at least 3 aligned lines among the first 30, or one of
the (case-sensitive) structure indicators occurs in the content. -/
def tabularCanProcess (document_content : String) : Bool :=
  let content := document_content.toList
  let lines := splitOnPred (fun c => c = '\n') content
  let csvLike := (lines.take 20).countP fun line =>
    containsList [','] line && decide (2 ≤ (splitOnPred (fun c => c = ',') line).length)
  let aligned := (lines.take 30).countP alignedSearch
  let indicators := ["|", "+-", "===", "---", "table", "column", "row",
    "header", "\t", "    "]
  decide (3 ≤ csvLike) || decide (3 ≤ aligned) ||
    indicators.any fun ind => containsList ind.toList content

/-- The `valid_types` of `_validate_data_type`, in source order (the
source iterates a Python `set`, whose order for the partial-match scan
is implementation-defined; no claim depends on that scan's choice). -/
def VALID_TYPES : List String :=
  ["financial_data", "personal_info", "inventory", "schedule",
   "contact_list", "transaction_history", "asset_list",
   "liability_list", "income_statement", "expense_report",
   "employment_history", "education_history", "reference_list",
   "unknown"]

/-- Python `data_type.lower().replace(" ", "_")`. -/
def normalizeDataType (data_type : String) : String :=
  String.mk ((lowerString data_type).toList.map fun c =>
    if c = ' ' then '_' else c)

/-- Source `TabularDataExtractor._validate_data_type`. -/
def validateDataType (data_type : String) : String :=
  let normalized := normalizeDataType data_type
  if normalized ∈ VALID_TYPES then normalized
  else
    match VALID_TYPES.find? (fun vt =>
        containsList normalized.toList vt.toList ||
        containsList vt.toList normalized.toList) with
    | some vt => vt
    | none => "unknown"

/-- One element of the parsed JSON array handed to
`_format_extracted_tables`: either not a dict (skipped by the
`isinstance` guard) or a table object with its optional members. -/
inductive RawItem where
  | nonDict
  | table (dataType : Option String) (headers : Option (List String))
      (data : Option (List (List String))) (confidence : Option ℚ)
      (description : Option String)
deriving DecidableEq, Repr

/-- One formatted table produced by `_format_extracted_tables`. -/
structure FormattedTable where
  dataType : String
  headers : List String
  data : List (List String)
  confidence : ℚ
  description : String
  table_id : String
  row_count : ℕ
  column_count : ℕ
deriving DecidableEq, Repr

/-- Source `TabularDataExtractor._format_extracted_tables`: skip non-dicts
(their index still advances), clamp confidence into `[0, 1]`, and keep
only tables with `row_count > 0` and `column_count > 0`. -/
def formatExtractedTables (tables : List RawItem) (filename : String) :
    List FormattedTable :=
  tables.enum.filterMap fun it =>
    match it.2 with
    | .nonDict => none
    | .table dt hs ds cf desc =>
      let ft : FormattedTable :=
        { dataType := validateDataType (dt.getD "unknown"),
          headers := hs.getD [],
          data := ds.getD [],
          confidence := pyMax 0 (pyMin 1 (cf.getD 0)),
          description := desc.getD ("Table " ++ toString (it.1 + 1)),
          table_id := "table_" ++ toString (it.1 + 1),
          row_count := (ds.getD []).length,
          column_count := (hs.getD []).length }
      if ft.row_count > 0 && ft.column_count > 0 then some ft else none

/-- Source `TabularDataExtractor.extract`: `.ok tables` models a Claude call
whose response parsed (by JSON or by the fallback line scan) to the
array `tables`; `.error` models a raised exception, answered with an
empty result.  The confidence is `sum/len` over the formatted tables. -/
def tabularExtract (llmOutcome : Except String (List RawItem))
    (filename : String) : ExtractionResult FormattedTable :=
  match llmOutcome with
  | .ok tables =>
    let formatted := formatExtractedTables tables filename
    let confidences := formatted.map FormattedTable.confidence
    { data := formatted,
      extractor_type := "tabular_data",
      confidence :=
        if confidences.isEmpty then 0
        else confidences.sum / confidences.length }
  | .error _ =>
    { data := [],
      extractor_type := "tabular_data",
      confidence := 0 }

/-! ## Extraction pipeline (`extraction_pipeline.py`, `base_extractor.py`) -/

/-- A registered extractor as the pipeline sees it: its name, extraction
type, `get_priority()` value, `can_process` test and `extract` body
(`.error` models a raised exception).  `ρ` is the stored result type. -/
structure PExtractor (ρ : Type) where
  name : String
  extraction_type : String
  priority : ℤ
  can_process : String → Bool
  extract : String → String → Except String ρ

/-- Source `BaseExtractor.get_priority` when not overridden. -/
def defaultGetPriority : ℤ := 100

/-- Source `ExtractionPipeline.add_extractor`: `self.extractors.append(e)`. -/
def addExtractor (extractors : List (PExtractor ρ)) (e : PExtractor ρ) :
    List (PExtractor ρ) :=
  extractors ++ [e]

/-- Source `ExtractionPipeline.remove_extractor`. -/
def removeExtractor (extractors : List (PExtractor ρ)) (n : String) :
    List (PExtractor ρ) :=
  extractors.filter fun e => e.name ≠ n

/-- The key an extraction type is stored under in the result map. -/
def storeKey (extraction_type : String) : String :=
  if extraction_type = "personal_data" then "personalData"
  else if extraction_type = "tabular_data" then "tabularData"
  else extraction_type

/-- Source `ExtractionPipeline._get_active_extractors`.  Python's
`if enabled_extractors and name not in enabled_extractors` only filters
by name when the enabled list is truthy, i.e. present and nonempty. -/
def activeExtractors (extractors : List (PExtractor ρ))
    (document_content : String) (enabled : Option (List String)) :
    List (PExtractor ρ) :=
  extractors.filter fun e =>
    (match enabled with
     | none => true
     | some l => l.isEmpty || decide (e.name ∈ l)) &&
    e.can_process document_content

/-- Insert `x` before the first element `y` with `r x y` (the insertion
step of a stable insertion sort, modelling Python's stable `list.sort`). -/
def insertOrd (r : α → α → Bool) (x : α) : List α → List α
  | [] => [x]
  | y :: ys => if r x y then x :: y :: ys else y :: insertOrd r x ys

/-- Stable insertion sort by the relation `r` ("may come before"). -/
def insortBy (r : α → α → Bool) : List α → List α
  | [] => []
  | x :: xs => insertOrd r x (insortBy r xs)

/-- The ascending-priority relation of
`active_extractors.sort(key=lambda x: x.get_priority())`. -/
def prioLE (a b : PExtractor ρ) : Bool := decide (a.priority ≤ b.priority)

/-- The order in which `process_document` runs the extractors: survivors
of the filter, stably sorted by ascending priority. -/
def runOrder (extractors : List (PExtractor ρ)) (document_content : String)
    (enabled : Option (List String)) : List (PExtractor ρ) :=
  insortBy prioLE (activeExtractors extractors document_content enabled)

/-- One entry of `extraction_metadata["extractors_run"]`. -/
structure RunEntry where
  name : String
  etype : String
  success : Bool
  error : Option String
deriving DecidableEq, Repr

/-- The parts of `process_document`'s output the claims are about: the
type-keyed result entries (in insertion order) and the run metadata. -/
structure ProcessOutput (ρ : Type) where
  results : List (String × ρ)
  extractors_run : List RunEntry
  success_count : ℕ
  error_count : ℕ

/-- The extractor loop of `process_document` (lines 100-137): a result
entry is stored only in the `try` branch; a raised exception only adds a
failed `extractors_run` entry. -/
def runExtractors (document_content filename : String) :
    List (PExtractor ρ) → ProcessOutput ρ
  | [] => ⟨[], [], 0, 0⟩
  | e :: rest =>
    let tail := runExtractors document_content filename rest
    match e.extract document_content filename with
    | .ok r =>
      ⟨(storeKey e.extraction_type, r) :: tail.results,
       ⟨e.name, e.extraction_type, true, none⟩ :: tail.extractors_run,
       tail.success_count + 1, tail.error_count⟩
    | .error msg =>
      ⟨tail.results,
       ⟨e.name, e.extraction_type, false, some msg⟩ :: tail.extractors_run,
       tail.success_count, tail.error_count + 1⟩

/-- Source `ExtractionPipeline.process_document`. -/
def processDocument (extractors : List (PExtractor ρ))
    (document_content filename : String)
    (enabled : Option (List String)) : ProcessOutput ρ :=
  runExtractors document_content filename
    (runOrder extractors document_content enabled)

/-- The key set of the returned result map: the type-keyed entries plus
the `extraction_metadata` key added at line 144. -/
def resultMapKeys (o : ProcessOutput ρ) : List String :=
  o.results.map Prod.fst ++ ["extraction_metadata"]

/-- The `PersonalDataExtractor` as registered by the pipeline, with its
`extract` body abstracted (it calls Claude). -/
def mkPersonalDataExtractor (extract : String → String → Except String ρ) :
    PExtractor ρ :=
  { name := "personal_data_extractor",
    extraction_type := "personal_data",
    priority := 10,
    can_process := personalCanProcess,
    extract := extract }

/-- The `TabularDataExtractor` as registered by the pipeline, with its
`extract` body abstracted. -/
def mkTabularDataExtractor (extract : String → String → Except String ρ) :
    PExtractor ρ :=
  { name := "tabular_data_extractor",
    extraction_type := "tabular_data",
    priority := 20,
    can_process := tabularCanProcess,
    extract := extract }

/-! ## Output manager: personal-data aggregation (`output_manager.py`) -/

/-- The explicit standard-field mapping of `_convert_to_camel_case`. -/
def FIELD_MAPPING : List (String × String) :=
  [("First name", "firstName"), ("Last name", "lastName"),
   ("Middle name", "middleName"), ("Date of birth", "dateOfBirth"),
   ("Social Security Number", "socialSecurityNumber"),
   ("Phone number", "phoneNumber"), ("Email address", "emailAddress"),
   ("Home address", "homeAddress"),
   ("Employment status", "employmentStatus"),
   ("Annual income", "annualIncome"), ("Employer name", "employerName"),
   ("Job title", "jobTitle")]

/-- Python `str.split()` with no argument: split on whitespace runs,
dropping empty pieces. -/
def pySplitWs (l : List Char) : List (List Char) :=
  (splitOnPred isPySpace l).filter fun w => !w.isEmpty

/-- Python `str.capitalize`: first character uppercased, the rest
lowercased. -/
def pyCapitalize : List Char → List Char
  | [] => []
  | c :: cs => c.toUpper :: cs.map Char.toLower

/-- Source `OutputManager._convert_to_camel_case`. -/
def convertToCamelCase (field_name : String) : String :=
  match FIELD_MAPPING.find? (fun p => p.1 = field_name) with
  | some p => p.2
  | none =>
    match pySplitWs field_name.toList with
    | [] => field_name
    | w :: ws =>
      String.mk (w.map Char.toLower ++ (ws.map pyCapitalize).flatten)

/-- One provenance element `{"file": ..., "confidence": ...}`. -/
structure FileInstance where
  file : String
  confidence : ℚ
deriving DecidableEq, Repr

/-- Add one instance under its value in a field's value-entry list:
append to the existing entry for that value, or append a fresh entry at
the end (lines 336-359). -/
def addInstance (entries : List (String × List FileInstance))
    (value : String) (inst : FileInstance) :
    List (String × List FileInstance) :=
  match entries with
  | [] => [(value, [inst])]
  | e :: rest =>
    if e.1 = value then (e.1, e.2 ++ [inst]) :: rest
    else e :: addInstance rest value inst

/-- The in-construction aggregation: a field keyed by its camelCase name
maps to its value entries (dict insertion order as list order). -/
abbrev AggDraft := List (String × List (String × List FileInstance))

/-- Route one instance to its field's entry list, appending a new field
at the end on first sight. -/
def addToField (agg : AggDraft) (key value : String)
    (inst : FileInstance) : AggDraft :=
  match agg with
  | [] => [(key, [(value, [inst])])]
  | f :: rest =>
    if f.1 = key then (f.1, addInstance f.2 value inst) :: rest
    else f :: addToField rest key value inst

/-- Process one personal-data record of one document (lines 320-359):
sentinel values are skipped, others are filed under the camelCase field
name with `(filename, confidence)` provenance. -/
def addRecordToAgg (filename : String) (agg : AggDraft) (r : Record) :
    AggDraft :=
  if r.field_value = "Not found" then agg
  else
    addToField agg (convertToCamelCase r.field_name) r.field_value
      ⟨filename, r.confidence⟩

/-- Phase 1 of `create_personal_data_aggregation`: fold over the
documents (a document without a usable `personalData` entry is
skipped). -/
def buildAggregated (docs : List (String × Option (List Record))) :
    AggDraft :=
  docs.foldl
    (fun agg d =>
      match d.2 with
      | none => agg
      | some recs => recs.foldl (addRecordToAgg d.1) agg)
    []

/-- One finished value entry of the aggregation. -/
structure ValueEntry where
  value : String
  instances : List FileInstance
  occurrences : ℕ
  weightedScore : ℚ
deriving DecidableEq, Repr

/-- Round half to even, Python's `round` tie rule (the code rounds exact
binary floats; over the rationals in play the two agree). -/
def roundHalfEven (q : ℚ) : ℤ :=
  let f := q.floor
  let r := q - (f : ℚ)
  if r < 1/2 then f
  else if 1/2 < r then f + 1
  else if f % 2 = 0 then f else f + 1

/-- Python `round(x, 3)`. -/
def round3 (q : ℚ) : ℚ := (roundHalfEven (q * 1000) : ℚ) / 1000

/-- Descending `(occurrences, weightedScore)` order with stable ties:
the relation handed to `insortBy` to model
`sort(key=lambda x: (occurrences, weightedScore), reverse=True)`. -/
def entryBeforeDesc (a b : ValueEntry) : Bool :=
  decide (b.occurrences < a.occurrences) ||
    (decide (a.occurrences = b.occurrences) &&
     decide (b.weightedScore ≤ a.weightedScore))

/-- Phase 2 of `create_personal_data_aggregation` for one field (lines
361-379): set `occurrences` from the provenance length, `weightedScore`
as the rounded share of the field's total, and sort descending. -/
def finalizeField (values : List (String × List FileInstance)) :
    List ValueEntry :=
  let total := (values.map fun v => v.2.length).sum
  let entries := values.map fun v =>
    { value := v.1,
      instances := v.2,
      occurrences := v.2.length,
      weightedScore :=
        if 0 < total then round3 ((v.2.length : ℚ) / total) else 0 }
  insortBy entryBeforeDesc entries

/-- Source `OutputManager.create_personal_data_aggregation`: the
`aggregated_personal_data` map, field by field. -/
def createPersonalDataAggregation
    (docs : List (String × Option (List Record))) :
    List (String × List ValueEntry) :=
  (buildAggregated docs).map fun f => (f.1, finalizeField f.2)

/-- One entry of the summary's `inconsistencies_found` list. -/
structure Inconsistency where
  field : String
  value_count : ℕ
  values : List String
deriving DecidableEq, Repr

/-- The `inconsistencies_found` list of
`_generate_aggregation_summary` (lines 398-406): fields with more than
one value entry, reported with up to 3 sample values. -/
def inconsistenciesFound (agg : List (String × List ValueEntry)) :
    List Inconsistency :=
  (agg.filter fun f => decide (1 < f.2.length)).map fun f =>
    ⟨f.1, f.2.length, (f.2.take 3).map ValueEntry.value⟩

/-! ## The spec's aggregate-confidence rule, for comparison (C1) -/

/-- Modelled from the spec's words, not the source: "aggregate (mean of
non-zero record confidences, or 0.0 if none)".  Compared against the
extractors' actual `sum/len` aggregate. -/
def specMeanNonZeroConfidence (confidences : List ℚ) : ℚ :=
  let nz := confidences.filter fun c => c ≠ 0
  if nz.isEmpty then 0 else nz.sum / nz.length

/-! ## Auxiliary notions used by the statements -/

/-- No two adjacent space characters. -/
def noAdjSpaces : List Char → Bool
  | a :: b :: rest => !(a = ' ' && b = ' ') && noAdjSpaces (b :: rest)
  | _ => true

/-- Whitespace-collapsed shape: every whitespace character is a plain
space and no two spaces are adjacent. -/
def spaceNormalized (s : String) : Bool :=
  s.toList.all (fun c => !isPySpace c || c = ' ') && noAdjSpaces s.toList

/-- The total occurrence count across a field's value entries. -/
def totalOccurrences (entries : List ValueEntry) : ℕ :=
  (entries.map ValueEntry.occurrences).sum

/-- A custom extractor whose `extract` raises (the pipeline's `except`
branch): exercises the failure path of `process_document`. -/
def boomExtractor : PExtractor Unit :=
  { name := "boom",
    extraction_type := "boom_data",
    priority := 5,
    can_process := fun _ => true,
    extract := fun _ _ => .error "boom" }

/-- A custom extractor whose `extract` returns normally. -/
def okExtractor : PExtractor Unit :=
  { name := "steady",
    extraction_type := "steady_data",
    priority := 7,
    can_process := fun _ => true,
    extract := fun _ _ => .ok () }

/-- A minimal extractor with the un-overridden default priority, for the
registry claims. -/
def dummyExtractor : PExtractor Unit :=
  { name := "dummy",
    extraction_type := "dummy_data",
    priority := defaultGetPriority,
    can_process := fun _ => true,
    extract := fun _ _ => .ok () }

/-- Every provenance list inside the draft aggregation is nonempty. -/
def DraftWF (agg : AggDraft) : Prop :=
  ∀ p ∈ agg, ∀ v ∈ p.2, v.2 ≠ []

/-- The value keys of every field's entry list are distinct. -/
def DraftNodup (agg : AggDraft) : Prop :=
  ∀ p ∈ agg, (p.2.map Prod.fst).Nodup

/-! ## Helper lemmas -/

theorem insertOrd_head? (r : α → α → Bool) (x : α) (l : List α) :
    (insertOrd r x l).head? = some x ∨ (insertOrd r x l).head? = l.head? := by
  cases l with
  | nil => left; rfl
  | cons y ys =>
    by_cases hxy : r x y = true
    · left; simp [insertOrd, hxy]
    · right; simp [insertOrd, hxy]

theorem insertOrd_chain (r : α → α → Bool)
    (total : ∀ a b, r a b = true ∨ r b a = true) (x : α) :
    ∀ l : List α, List.Chain' (fun a b => r a b = true) l →
      List.Chain' (fun a b => r a b = true) (insertOrd r x l)
  | [], _ => by simp [insertOrd]
  | y :: ys, h => by
    by_cases hxy : r x y = true
    · rw [insertOrd, if_pos hxy, List.chain'_cons]
      exact ⟨hxy, h⟩
    · rw [insertOrd, if_neg hxy, List.chain'_cons']
      refine ⟨fun z hz => ?_, insertOrd_chain r total x ys h.tail⟩
      rcases insertOrd_head? r x ys with hh | hh
      · have hz' : z = x := by
          rw [hh] at hz
          exact (Option.some_inj.mp hz).symm
        rw [hz']
        exact (total x y).resolve_left hxy
      · rw [hh] at hz
        exact (List.chain'_cons'.mp h).1 z hz

theorem insortBy_chain (r : α → α → Bool)
    (total : ∀ a b, r a b = true ∨ r b a = true) :
    ∀ l : List α, List.Chain' (fun a b => r a b = true) (insortBy r l)
  | [] => List.chain'_nil
  | x :: xs => insertOrd_chain r total x _ (insortBy_chain r total xs)

theorem insertOrd_perm (r : α → α → Bool) (x : α) :
    ∀ l : List α, (insertOrd r x l).Perm (x :: l)
  | [] => List.Perm.refl _
  | y :: ys => by
    by_cases hxy : r x y = true
    · rw [insertOrd, if_pos hxy]
    · rw [insertOrd, if_neg hxy]
      exact ((insertOrd_perm r x ys).cons y).trans (List.Perm.swap x y ys)

theorem insortBy_perm (r : α → α → Bool) :
    ∀ l : List α, (insortBy r l).Perm l
  | [] => List.Perm.refl _
  | x :: xs =>
    (insertOrd_perm r x _).trans ((insortBy_perm r xs).cons x)

theorem insertOrd_filter_pos (r : α → α → Bool) (f : α → Bool) (x : α)
    (hx : f x = true) (hpass : ∀ y, ¬r x y = true → f y = false) :
    ∀ l : List α, (insertOrd r x l).filter f = x :: l.filter f
  | [] => by simp [insertOrd, hx]
  | y :: ys => by
    by_cases hxy : r x y = true
    · simp [insertOrd, hxy, hx]
    · have hfy : f y = false := hpass y hxy
      rw [insertOrd, if_neg hxy]
      simp [List.filter_cons, hfy,
        insertOrd_filter_pos r f x hx hpass ys]

theorem insertOrd_filter_neg (r : α → α → Bool) (f : α → Bool) (x : α)
    (hx : f x = false) :
    ∀ l : List α, (insertOrd r x l).filter f = l.filter f
  | [] => by simp [insertOrd, hx]
  | y :: ys => by
    by_cases hxy : r x y = true
    · simp [insertOrd, hxy, hx]
    · rw [insertOrd, if_neg hxy]
      simp [List.filter_cons, insertOrd_filter_neg r f x hx ys]

theorem insortBy_filter (r : α → α → Bool) (f : α → Bool)
    (hcomp : ∀ x y, f x = true → ¬r x y = true → f y = false) :
    ∀ l : List α, (insortBy r l).filter f = l.filter f
  | [] => rfl
  | x :: xs => by
    by_cases hx : f x = true
    · rw [insortBy, insertOrd_filter_pos r f x hx (fun y => hcomp x y hx) _,
        insortBy_filter r f hcomp xs]
      simp [List.filter_cons, hx]
    · rw [insortBy,
        insertOrd_filter_neg r f x (Bool.not_eq_true _ ▸ hx) _,
        insortBy_filter r f hcomp xs]
      simp [List.filter_cons, Bool.not_eq_true _ ▸ hx]

theorem runExtractors_names (doc fn : String) :
    ∀ l : List (PExtractor ρ),
      (runExtractors doc fn l).extractors_run.map RunEntry.name =
        l.map PExtractor.name
  | [] => rfl
  | e :: rest => by
    rw [runExtractors]
    cases e.extract doc fn with
    | ok r => simp [runExtractors_names doc fn rest]
    | error msg => simp [runExtractors_names doc fn rest]

theorem runExtractors_length (doc fn : String) :
    ∀ l : List (PExtractor ρ),
      (runExtractors doc fn l).extractors_run.length = l.length
  | [] => rfl
  | e :: rest => by
    rw [runExtractors]
    cases e.extract doc fn with
    | ok r => simp [runExtractors_length doc fn rest]
    | error msg => simp [runExtractors_length doc fn rest]

theorem prioLE_total (a b : PExtractor ρ) :
    prioLE a b = true ∨ prioLE b a = true := by
  unfold prioLE
  rcases le_total a.priority b.priority with h | h
  · left; simpa using h
  · right; simpa using h

theorem entryBeforeDesc_total (a b : ValueEntry) :
    entryBeforeDesc a b = true ∨ entryBeforeDesc b a = true := by
  unfold entryBeforeDesc
  rcases lt_trichotomy a.occurrences b.occurrences with h | h | h
  · right; simp [h]
  · rcases le_total a.weightedScore b.weightedScore with hw | hw
    · right; simp [h, hw]
    · left; simp [h, hw]
  · left; simp [h]

theorem addInstance_snd_ne_nil (value : String) (inst : FileInstance) :
    ∀ entries : List (String × List FileInstance),
      (∀ v ∈ entries, v.2 ≠ []) →
      ∀ v ∈ addInstance entries value inst, v.2 ≠ []
  | [], _, v, hv => by
    simp only [addInstance, List.mem_singleton] at hv
    subst hv
    simp
  | e :: rest, h, v, hv => by
    by_cases he : e.1 = value
    · simp only [addInstance, if_pos he, List.mem_cons] at hv
      rcases hv with hv | hv
      · subst hv; simp
      · exact h v (List.mem_cons_of_mem _ hv)
    · simp only [addInstance, if_neg he, List.mem_cons] at hv
      rcases hv with hv | hv
      · subst hv; exact h v (List.mem_cons_self _ _)
      · exact addInstance_snd_ne_nil value inst rest
          (fun w hw => h w (List.mem_cons_of_mem _ hw)) v hv

theorem addToField_wf (key value : String) (inst : FileInstance) :
    ∀ agg : AggDraft, DraftWF agg →
      DraftWF (addToField agg key value inst)
  | [], _, p, hp, v, hv => by
    simp only [addToField, List.mem_singleton] at hp
    subst hp
    simp only [List.mem_singleton] at hv
    subst hv
    simp
  | f :: rest, h, p, hp, v, hv => by
    by_cases hf : f.1 = key
    · simp only [addToField, if_pos hf, List.mem_cons] at hp
      rcases hp with hp | hp
      · subst hp
        exact addInstance_snd_ne_nil value inst f.2
          (h f (List.mem_cons_self _ _)) v hv
      · exact h p (List.mem_cons_of_mem _ hp) v hv
    · simp only [addToField, if_neg hf, List.mem_cons] at hp
      rcases hp with hp | hp
      · subst hp; exact h p (List.mem_cons_self _ _) v hv
      · exact addToField_wf key value inst rest
          (fun q hq => h q (List.mem_cons_of_mem _ hq)) p hp v hv

theorem addRecordToAgg_wf (fn : String) (agg : AggDraft) (r : Record)
    (h : DraftWF agg) : DraftWF (addRecordToAgg fn agg r) := by
  unfold addRecordToAgg
  by_cases hr : r.field_value = "Not found"
  · simpa [hr] using h
  · simpa [hr] using addToField_wf _ _ _ agg h

theorem foldl_addRecord_wf (fn : String) :
    ∀ (recs : List Record) (agg : AggDraft), DraftWF agg →
      DraftWF (recs.foldl (addRecordToAgg fn) agg)
  | [], _, h => h
  | r :: rest, agg, h =>
    foldl_addRecord_wf fn rest _ (addRecordToAgg_wf fn agg r h)

theorem buildAggregated_wf_aux :
    ∀ (docs : List (String × Option (List Record))) (agg : AggDraft),
      DraftWF agg →
      DraftWF (docs.foldl
        (fun agg d =>
          match d.2 with
          | none => agg
          | some recs => recs.foldl (addRecordToAgg d.1) agg) agg)
  | [], _, h => h
  | d :: rest, agg, h => by
    rw [List.foldl_cons]
    apply buildAggregated_wf_aux rest
    cases hd : d.2 with
    | none => simpa [hd] using h
    | some recs => simpa [hd] using foldl_addRecord_wf d.1 recs agg h

theorem buildAggregated_wf (docs : List (String × Option (List Record))) :
    DraftWF (buildAggregated docs) :=
  buildAggregated_wf_aux docs [] (fun p hp => absurd hp (List.not_mem_nil p))

theorem addInstance_fst (value : String) (inst : FileInstance) :
    ∀ entries : List (String × List FileInstance),
      (addInstance entries value inst).map Prod.fst =
        (if value ∈ entries.map Prod.fst then entries.map Prod.fst
         else entries.map Prod.fst ++ [value])
  | [] => by simp [addInstance]
  | e :: rest => by
    by_cases he : e.1 = value
    · simp [addInstance, he]
    · have hne : ¬value = e.1 := fun h => he h.symm
      by_cases hm : value ∈ rest.map Prod.fst
      · simp [addInstance, he, addInstance_fst value inst rest, hne, hm]
      · simp [addInstance, he, addInstance_fst value inst rest, hne, hm]

theorem addInstance_nodup (value : String) (inst : FileInstance)
    (entries : List (String × List FileInstance))
    (h : (entries.map Prod.fst).Nodup) :
    ((addInstance entries value inst).map Prod.fst).Nodup := by
  rw [addInstance_fst]
  by_cases hm : value ∈ entries.map Prod.fst
  · simpa [hm] using h
  · simp [hm, List.nodup_append, h]

theorem addToField_nodup (key value : String) (inst : FileInstance) :
    ∀ agg : AggDraft, DraftNodup agg →
      DraftNodup (addToField agg key value inst)
  | [], _, p, hp => by
    simp only [addToField, List.mem_singleton] at hp
    subst hp
    simp
  | f :: rest, h, p, hp => by
    by_cases hf : f.1 = key
    · simp only [addToField, if_pos hf, List.mem_cons] at hp
      rcases hp with hp | hp
      · subst hp
        exact addInstance_nodup value inst f.2 (h f (List.mem_cons_self _ _))
      · exact h p (List.mem_cons_of_mem _ hp)
    · simp only [addToField, if_neg hf, List.mem_cons] at hp
      rcases hp with hp | hp
      · subst hp; exact h p (List.mem_cons_self _ _)
      · exact addToField_nodup key value inst rest
          (fun q hq => h q (List.mem_cons_of_mem _ hq)) p hp

theorem addRecordToAgg_nodup (fn : String) (agg : AggDraft) (r : Record)
    (h : DraftNodup agg) : DraftNodup (addRecordToAgg fn agg r) := by
  unfold addRecordToAgg
  by_cases hr : r.field_value = "Not found"
  · simpa [hr] using h
  · simpa [hr] using addToField_nodup _ _ _ agg h

theorem foldl_addRecord_nodup (fn : String) :
    ∀ (recs : List Record) (agg : AggDraft), DraftNodup agg →
      DraftNodup (recs.foldl (addRecordToAgg fn) agg)
  | [], _, h => h
  | r :: rest, agg, h =>
    foldl_addRecord_nodup fn rest _ (addRecordToAgg_nodup fn agg r h)

theorem buildAggregated_nodup_aux :
    ∀ (docs : List (String × Option (List Record))) (agg : AggDraft),
      DraftNodup agg →
      DraftNodup (docs.foldl
        (fun agg d =>
          match d.2 with
          | none => agg
          | some recs => recs.foldl (addRecordToAgg d.1) agg) agg)
  | [], _, h => h
  | d :: rest, agg, h => by
    rw [List.foldl_cons]
    apply buildAggregated_nodup_aux rest
    cases hd : d.2 with
    | none => simpa [hd] using h
    | some recs => simpa [hd] using foldl_addRecord_nodup d.1 recs agg h

theorem buildAggregated_nodup (docs : List (String × Option (List Record))) :
    DraftNodup (buildAggregated docs) :=
  buildAggregated_nodup_aux docs [] (fun p hp => absurd hp (List.not_mem_nil p))

theorem finalizeField_total (values : List (String × List FileInstance)) :
    totalOccurrences (finalizeField values) =
      (values.map fun v => v.2.length).sum := by
  unfold totalOccurrences finalizeField
  rw [((insortBy_perm entryBeforeDesc _).map ValueEntry.occurrences).sum_eq,
    List.map_map]
  rfl

theorem finalizeField_mem (values : List (String × List FileInstance))
    (e : ValueEntry) (he : e ∈ finalizeField values) :
    ∃ v ∈ values, e.value = v.1 ∧ e.instances = v.2 ∧
      e.occurrences = v.2.length ∧
      e.weightedScore =
        (if 0 < (values.map fun v => v.2.length).sum
         then round3 ((v.2.length : ℚ) /
           (((values.map fun v => v.2.length).sum : ℕ) : ℚ))
         else 0) := by
  unfold finalizeField at he
  rcases List.mem_map.mp ((insortBy_perm entryBeforeDesc _).mem_iff.mp he)
    with ⟨v, hv, hev⟩
  exact ⟨v, hv, by rw [← hev], by rw [← hev], by rw [← hev], by rw [← hev]⟩

theorem finalizeField_chain (values : List (String × List FileInstance)) :
    List.Chain' (fun a b => entryBeforeDesc a b = true)
      (finalizeField values) :=
  insortBy_chain entryBeforeDesc entryBeforeDesc_total _

theorem finalizeField_values (values : List (String × List FileInstance)) :
    ((finalizeField values).map ValueEntry.value).Perm
      (values.map Prod.fst) := by
  unfold finalizeField
  exact ((insortBy_perm entryBeforeDesc _).map ValueEntry.value).trans
    (by rw [List.map_map]; exact List.Perm.refl _)

theorem finalizeField_length (values : List (String × List FileInstance)) :
    (finalizeField values).length = values.length := by
  unfold finalizeField
  rw [(insortBy_perm entryBeforeDesc _).length_eq, List.length_map]

theorem collapseWsAux_space_char :
    ∀ (b : Bool) (l : List Char) (c : Char), c ∈ collapseWsAux b l →
      isPySpace c = true → c = ' '
  | _, [], c, hc, _ => absurd hc (List.not_mem_nil c)
  | b, a :: as, c, hc, hsp => by
    by_cases ha : isPySpace a = true
    · cases b with
      | true =>
        rw [collapseWsAux, if_pos ha, if_pos rfl] at hc
        exact collapseWsAux_space_char true as c hc hsp
      | false =>
        rw [collapseWsAux, if_pos ha] at hc
        simp only [Bool.false_eq_true, if_false, List.mem_cons] at hc
        rcases hc with hc | hc
        · exact hc
        · exact collapseWsAux_space_char true as c hc hsp
    · rw [collapseWsAux, if_neg ha] at hc
      rcases List.mem_cons.mp hc with hc | hc
      · subst hc; exact absurd hsp ha
      · exact collapseWsAux_space_char false as c hc hsp

theorem collapseWsAux_true_head :
    ∀ (l : List Char) (c : Char),
      (collapseWsAux true l).head? = some c → c ≠ ' '
  | [], c, h => by simp [collapseWsAux] at h
  | a :: as, c, h => by
    by_cases ha : isPySpace a = true
    · rw [collapseWsAux, if_pos ha, if_pos rfl] at h
      exact collapseWsAux_true_head as c h
    · rw [collapseWsAux, if_neg ha] at h
      have hca : c = a := (Option.some_inj.mp h).symm
      subst hca
      intro hc
      rw [hc] at ha
      exact ha (by decide)

theorem noAdjSpaces_cons_of (a : Char) (l : List Char)
    (h1 : noAdjSpaces l = true)
    (h2 : ∀ c, l.head? = some c → a = ' ' → c ≠ ' ') :
    noAdjSpaces (a :: l) = true := by
  cases l with
  | nil => rfl
  | cons b t =>
    have hb : (decide (a = ' ') && decide (b = ' ')) = false := by
      by_cases hha : a = ' '
      · simp [hha, h2 b rfl hha]
      · simp [hha]
    simp only [noAdjSpaces, hb, Bool.not_false, Bool.true_and]
    exact h1

theorem collapseWsAux_noAdj :
    ∀ (b : Bool) (l : List Char), noAdjSpaces (collapseWsAux b l) = true
  | _, [] => rfl
  | b, a :: as => by
    by_cases ha : isPySpace a = true
    · cases b with
      | true =>
        rw [collapseWsAux, if_pos ha, if_pos rfl]
        exact collapseWsAux_noAdj true as
      | false =>
        rw [collapseWsAux, if_pos ha]
        simp only [Bool.false_eq_true, if_false]
        exact noAdjSpaces_cons_of ' ' _ (collapseWsAux_noAdj true as)
          (fun c hc _ => collapseWsAux_true_head as c hc)
    · rw [collapseWsAux, if_neg ha]
      refine noAdjSpaces_cons_of a _ (collapseWsAux_noAdj false as)
        (fun c hc ha' => ?_)
      rw [ha'] at ha
      exact absurd (by decide) ha

theorem noAdjSpaces_tail :
    ∀ l : List Char, noAdjSpaces l = true → noAdjSpaces l.tail = true
  | [], _ => rfl
  | [_], _ => rfl
  | _ :: b :: t, h => by
    simp only [noAdjSpaces, Bool.and_eq_true] at h
    exact h.2

theorem noAdjSpaces_dropLast :
    ∀ l : List Char, noAdjSpaces l = true → noAdjSpaces l.dropLast = true
  | [], _ => rfl
  | [_], _ => rfl
  | a :: b :: t, h => by
    simp only [noAdjSpaces, Bool.and_eq_true] at h
    cases t with
    | nil => rfl
    | cons c t' =>
      have ih := noAdjSpaces_dropLast (b :: c :: t') h.2
      simp only [List.dropLast] at ih ⊢
      simp only [noAdjSpaces, Bool.and_eq_true]
      exact ⟨h.1, ih⟩

theorem runExtractors_ok_mem (doc fn : String) :
    ∀ l : List (PExtractor ρ), ∀ e ∈ l, ∀ r,
      e.extract doc fn = .ok r →
      (storeKey e.extraction_type, r) ∈ (runExtractors doc fn l).results
  | [], e, he, _, _ => absurd he (List.not_mem_nil e)
  | e₀ :: rest, e, he, r, hr => by
    rw [runExtractors]
    rcases List.mem_cons.mp he with he₀ | hrest
    · subst he₀
      rw [hr]
      exact List.mem_cons_self _ _
    · cases h₀ : e₀.extract doc fn with
      | ok r₀ =>
        exact List.mem_cons_of_mem _
          (runExtractors_ok_mem doc fn rest e hrest r hr)
      | error msg =>
        exact runExtractors_ok_mem doc fn rest e hrest r hr

theorem spaceNormalized_mk (l : List Char)
    (h1 : ∀ c ∈ l, isPySpace c = true → c = ' ')
    (h2 : noAdjSpaces l = true) :
    spaceNormalized (String.mk l) = true := by
  unfold spaceNormalized
  have htl : (String.mk l).toList = l := rfl
  rw [htl, h2, Bool.and_true, List.all_eq_true]
  intro c hc
  by_cases hsp : isPySpace c = true
  · simp [h1 c hc hsp]
  · simp [Bool.not_eq_true _ ▸ hsp]

/-! ## Claims

The rational operations of Batteries are marked irreducible; they are
restored to semireducible here so that `decide` can evaluate concrete
confidence arithmetic. -/

attribute [local semireducible] Rat.add Rat.sub Rat.mul Rat.inv
  Rat.ofScientific

/-- C10 counterexample: `add_extractor` is not idempotent — adding the
same extractor twice to the empty registry yields a two-element
registry, not the one-element registry of a single add. -/
theorem C10_add_extractor_counterexample :
    addExtractor (addExtractor [] dummyExtractor) dummyExtractor ≠
      addExtractor ([] : List (PExtractor Unit)) dummyExtractor := by
  intro h
  simpa [addExtractor] using congrArg List.length h

/-- C10 (amended): `add_extractor` is a plain append — calling it twice
with the same extractor appends it twice, so the registry after two
calls has one element more than after one call. -/
theorem C10_add_extractor_append :
    ∀ (ρ : Type) (reg : List (PExtractor ρ)) (e : PExtractor ρ),
      addExtractor reg e = reg ++ [e] ∧
      addExtractor (addExtractor reg e) e = reg ++ [e, e] ∧
      (addExtractor (addExtractor reg e) e).length =
        (addExtractor reg e).length + 1 := by
  intro ρ reg e
  refine ⟨rfl, by simp [addExtractor], by simp [addExtractor]⟩

/-- C3 counterexample: an extractor whose `extract` raises appears in
`extractors_run` (it ran), but the result map holds no type-keyed entry
for it — only `extraction_metadata`. -/
theorem C3_result_map_counterexample :
    resultMapKeys (processDocument [boomExtractor] "doc" "file.txt" none) =
      ["extraction_metadata"] ∧
    (processDocument [boomExtractor] "doc" "file.txt" none).extractors_run =
      [{ name := "boom", etype := "boom_data", success := false,
         error := some "boom" }] :=
  ⟨rfl, rfl⟩

/-- C3 (amended): the result map always contains `extraction_metadata`
and one `extractors_run` entry per extractor that ran; a type-keyed
result entry exists for every extractor whose `extract` returned
normally (when it raises, the entry is absent). -/
theorem C3_result_map_entries :
    ∀ (ρ : Type) (exts : List (PExtractor ρ)) (doc fn : String)
      (enabled : Option (List String)),
      "extraction_metadata" ∈
        resultMapKeys (processDocument exts doc fn enabled) ∧
      (processDocument exts doc fn enabled).extractors_run.length =
        (runOrder exts doc enabled).length ∧
      (∀ e ∈ runOrder exts doc enabled, ∀ r, e.extract doc fn = .ok r →
        (storeKey e.extraction_type, r) ∈
          (processDocument exts doc fn enabled).results) := by
  intro ρ exts doc fn enabled
  refine ⟨?_, ?_, ?_⟩
  · simp [resultMapKeys]
  · exact runExtractors_length doc fn _
  · exact fun e he r hr => runExtractors_ok_mem doc fn _ e he r hr

/-- C3 witness: a succeeding extractor does get its type-keyed entry. -/
theorem C3_result_map_entries_witness :
    ("steady_data", ()) ∈
      (processDocument [okExtractor] "doc" "f" none).results :=
  (C3_result_map_entries Unit [okExtractor] "doc" "f" none).2.2 okExtractor
    (List.Mem.head _) () rfl

/-- C4 (confirmed): the personal-data extractor always emits exactly 12
records, one per canonical field in schema order — for every parsed
response (which covers both the JSON and the fallback path), and on
total failure the 12 records are all sentinels with confidence 0. -/
theorem C4_twelve_records :
    (∀ (raw : List (String × FieldData)) (fn : String),
        (personalExtract (.ok raw) fn).data.map Record.field_name =
          STANDARD_FIELDS ∧
        (personalExtract (.ok raw) fn).data.length = 12) ∧
    (∀ (text fn : String),
        (personalExtract (.ok (fallbackParseResponse text)) fn).data.length
          = 12) ∧
    (∀ (e fn : String),
        (personalExtract (.error e) fn).data = createEmptyRecords fn ∧
        (createEmptyRecords fn).map Record.field_name = STANDARD_FIELDS ∧
        ∀ r ∈ createEmptyRecords fn,
          r.field_value = "Not found" ∧ r.confidence = 0) := by
  refine ⟨fun raw fn => ⟨?_, ?_⟩, fun text fn => ?_, fun e fn => ⟨rfl, ?_, ?_⟩⟩
  · simp [personalExtract, formatExtractedData, List.map_map,
      Function.comp_def]
  · simp only [personalExtract, formatExtractedData, List.length_map]
    decide
  · simp only [personalExtract, formatExtractedData, List.length_map]
    decide
  · simp [createEmptyRecords, List.map_map, Function.comp_def]
  · intro r hr
    rcases List.mem_map.mp hr with ⟨field, _, hfr⟩
    rw [← hfr]
    exact ⟨rfl, rfl⟩

/-- C4 witness: the sentinel record for the first schema field is among
the failure records. -/
theorem C4_twelve_records_witness :
    ({ field_name := "First name", field_value := "Not found",
       confidence := 0 } : Record).field_value = "Not found" ∧
    ({ field_name := "First name", field_value := "Not found",
       confidence := 0 } : Record).confidence = 0 :=
  (C4_twelve_records.2.2 "LLM call failed" "doc.txt").2.2
    { field_name := "First name", field_value := "Not found",
      confidence := 0 } (by decide)

/-- C8 (confirmed): every table in the tabular extractor's result data
has positive `row_count` and `column_count` (zero-row or zero-column
tables are dropped during formatting), and the failure result holds no
tables at all. -/
theorem C8_no_empty_tables :
    (∀ (tables : List RawItem) (fn : String) (t : FormattedTable),
        t ∈ (tabularExtract (.ok tables) fn).data →
        0 < t.row_count ∧ 0 < t.column_count) ∧
    (∀ (e fn : String), (tabularExtract (.error e) fn).data = []) ∧
    (∀ (tables : List RawItem) (fn : String),
        (tabularExtract (.ok tables) fn).data =
          formatExtractedTables tables fn) := by
  refine ⟨fun tables fn t ht => ?_, fun e fn => rfl, fun tables fn => rfl⟩
  have ht' : t ∈ formatExtractedTables tables fn := ht
  rcases List.mem_filterMap.mp ht' with ⟨⟨i, item⟩, _, hsome⟩
  cases item with
  | nonDict => simp [formatExtractedTables] at hsome
  | table dt hs ds cf desc =>
    simp only at hsome
    split at hsome
    · rename_i hguard
      cases Option.some_inj.mp hsome
      simpa using hguard
    · exact absurd hsome (by simp)

/-- C8 witness: a concrete one-row, one-column table passes through. -/
theorem C8_no_empty_tables_witness :
    0 < ({ dataType := "unknown", headers := ["H"], data := [["x"]],
           confidence := 0, description := "Table 1",
           table_id := "table_1", row_count := 1,
           column_count := 1 } : FormattedTable).row_count ∧
    0 < ({ dataType := "unknown", headers := ["H"], data := [["x"]],
           confidence := 0, description := "Table 1",
           table_id := "table_1", row_count := 1,
           column_count := 1 } : FormattedTable).column_count :=
  C8_no_empty_tables.1 [.table none (some ["H"]) (some [["x"]]) none none]
    "f" _ (by decide)

/-- C1 counterexample: on the response `"First name: John"` the fallback
path yields one record at confidence 0.6 and eleven at 0.0; the code's
aggregate is the mean over all twelve (0.05), not the spec's mean of the
non-zero confidences (0.6). -/
theorem C1_aggregate_confidence_counterexample :
    (personalExtract (.ok (fallbackParseResponse "First name: John"))
        "a.txt").confidence ≠
      specMeanNonZeroConfidence
        ((personalExtract (.ok (fallbackParseResponse "First name: John"))
            "a.txt").data.map Record.confidence) := by
  decide

/-- C1 (amended): each extractor's aggregate confidence is the mean over
all its records' (resp. tables') confidences, zeros included — for the
personal extractor the sum over the fixed 12 records divided by 12 —
and 0.0 when there are no tables or on extraction failure. -/
theorem C1_aggregate_confidence_mean_of_all :
    (∀ (raw : List (String × FieldData)) (fn : String),
        (personalExtract (.ok raw) fn).confidence =
          ((personalExtract (.ok raw) fn).data.map Record.confidence).sum
            / 12) ∧
    (∀ (e fn : String), (personalExtract (.error e) fn).confidence = 0) ∧
    (∀ (tables : List RawItem) (fn : String),
        (tabularExtract (.ok tables) fn).confidence =
          (if (tabularExtract (.ok tables) fn).data.isEmpty then 0
           else ((tabularExtract (.ok tables) fn).data.map
               FormattedTable.confidence).sum /
             ((tabularExtract (.ok tables) fn).data.length : ℚ))) ∧
    (∀ (e fn : String), (tabularExtract (.error e) fn).confidence = 0) := by
  refine ⟨fun raw fn => ?_, fun e fn => rfl, fun tables fn => ?_,
    fun e fn => rfl⟩
  · have hlen : (formatExtractedData raw fn).length = 12 := by
      simp only [formatExtractedData, List.length_map]
      decide
    have hne :
        ((formatExtractedData raw fn).map Record.confidence).isEmpty
          = false := by
      rw [List.isEmpty_eq_false_iff_exists_mem]
      have : 0 < (formatExtractedData raw fn).length := by omega
      rcases List.exists_mem_of_length_pos this with ⟨r, hr⟩
      exact ⟨r.confidence, List.mem_map_of_mem _ hr⟩
    simp only [personalExtract, hne, if_false, List.length_map, hlen]
    norm_num
  · simp only [tabularExtract]
    cases h : formatExtractedTables tables fn with
    | nil => simp [h]
    | cons t ts => simp [h]

/-- C2 counterexample: on the response `"First name: n/a"` the fallback
captures `"n/a"` at confidence 0.6; `_clean_value` then canonicalizes
the value to the sentinel while the confidence stays 0.6, so a sentinel
record carries a non-zero confidence. -/
theorem C2_confidence_sentinel_counterexample :
    (personalExtract (.ok (fallbackParseResponse "First name: n/a"))
        "a.txt").data.head? =
      some { field_name := "First name", field_value := "Not found",
             confidence := 0.6 } ∧
    ¬((0.6 : ℚ) = 0) := by
  exact ⟨by decide, by decide⟩

/-- C2 (amended): every record confidence is clamped into [0, 1];
records for fields absent from the parsed response, and all records on
total failure, are sentinels with confidence 0.0.  The biconditional
"confidence = 0 iff value is the sentinel" does not hold in general. -/
theorem C2_confidence_bounds :
    (∀ (raw : List (String × FieldData)) (fn : String) (r : Record),
        r ∈ (personalExtract (.ok raw) fn).data →
        0 ≤ r.confidence ∧ r.confidence ≤ 1) ∧
    (∀ (raw : List (String × FieldData)) (fn field : String),
        field ∈ STANDARD_FIELDS → lookupField raw field = none →
        ({ field_name := field, field_value := "Not found",
           confidence := pyMax 0 (pyMin 1 0) } : Record) ∈
          (personalExtract (.ok raw) fn).data) ∧
    (∀ (e fn : String) (r : Record),
        r ∈ (personalExtract (.error e) fn).data →
        r.field_value = "Not found" ∧ r.confidence = 0) := by
  have pyClamp_bounds : ∀ c : ℚ,
      0 ≤ pyMax 0 (pyMin 1 c) ∧ pyMax 0 (pyMin 1 c) ≤ 1 := by
    intro c
    unfold pyMax pyMin
    constructor <;> (split_ifs <;> linarith)
  refine ⟨fun raw fn r hr => ?_, fun raw fn field hf hnone => ?_,
    fun e fn r hr => ?_⟩
  · rcases List.mem_map.mp hr with ⟨field, _, hfr⟩
    rw [← hfr]
    exact ⟨(pyClamp_bounds _).1, (pyClamp_bounds _).2⟩
  · have hclean : cleanValue "Not found" = "Not found" := by decide
    refine List.mem_map.mpr ⟨field, hf, ?_⟩
    simp [hnone, hclean]
  · rcases List.mem_map.mp hr with ⟨field, _, hfr⟩
    rw [← hfr]
    exact ⟨rfl, rfl⟩

/-- C2 witness: the bounds applied to a record of a concrete run, and
the absent-field sentinel for a concrete empty response. -/
theorem C2_confidence_bounds_witness :
    (0 ≤ ({ field_name := "First name", field_value := "Not found",
            confidence := pyMax 0 (pyMin 1 0) } : Record).confidence ∧
     ({ field_name := "First name", field_value := "Not found",
        confidence := pyMax 0 (pyMin 1 0) } : Record).confidence ≤ 1) ∧
    ({ field_name := "First name", field_value := "Not found",
       confidence := pyMax 0 (pyMin 1 0) } : Record) ∈
      (personalExtract (.ok []) "f").data :=
  ⟨C2_confidence_bounds.1 [] "f" _
      (C2_confidence_bounds.2.1 [] "f" "First name" (by decide) rfl),
   C2_confidence_bounds.2.1 [] "f" "First name" (by decide) rfl⟩

/-- C9 (confirmed): `process_document` runs the selected extractors in
ascending priority order (adjacent run priorities are nondecreasing),
the sort is stable (each priority class keeps its registration order,
stated as filter preservation), the run order is exactly the sorted
active list, the built-in extractors carry priorities 10 and 20, the
un-overridden default is 100, and with the default registrations the
personal-data extractor runs before the tabular-data extractor. -/
theorem C9_priority_order :
    (∀ (ρ : Type) (exts : List (PExtractor ρ)) (doc : String)
        (enabled : Option (List String)),
        List.Chain' (fun a b => a.priority ≤ b.priority)
          (runOrder exts doc enabled)) ∧
    (∀ (ρ : Type) (exts : List (PExtractor ρ)) (doc : String)
        (enabled : Option (List String)) (p : ℤ),
        (runOrder exts doc enabled).filter
            (fun e => decide (e.priority = p)) =
          (activeExtractors exts doc enabled).filter
            (fun e => decide (e.priority = p))) ∧
    (∀ (ρ : Type) (exts : List (PExtractor ρ)) (doc fn : String)
        (enabled : Option (List String)),
        (processDocument exts doc fn enabled).extractors_run.map
            RunEntry.name =
          (runOrder exts doc enabled).map PExtractor.name) ∧
    (∀ (ρ : Type) (ex : String → String → Except String ρ),
        (mkPersonalDataExtractor ex).priority = 10 ∧
        (mkTabularDataExtractor ex).priority = 20) ∧
    defaultGetPriority = 100 ∧
    (∀ (ρ : Type) (ex₁ ex₂ : String → String → Except String ρ),
        (processDocument
            [mkPersonalDataExtractor ex₁, mkTabularDataExtractor ex₂]
            "name | phone" "loan.txt" none).extractors_run.map
            RunEntry.name =
          ["personal_data_extractor", "tabular_data_extractor"]) := by
  refine ⟨fun ρ exts doc enabled => ?_, fun ρ exts doc enabled p => ?_,
    fun ρ exts doc fn enabled => runExtractors_names doc fn _,
    fun ρ ex => ⟨rfl, rfl⟩, rfl, fun ρ ex₁ ex₂ => ?_⟩
  · exact (insortBy_chain prioLE prioLE_total _).imp
      (fun a b h => of_decide_eq_true h)
  · refine insortBy_filter prioLE _ (fun x y hx hr => ?_) _
    have hxp : x.priority = p := of_decide_eq_true hx
    have hyx : y.priority < x.priority := by
      by_contra hcon
      exact hr (by simp [prioLE, not_lt.mp hcon])
    exact decide_eq_false (by omega)
  · rw [show processDocument
        [mkPersonalDataExtractor ex₁, mkTabularDataExtractor ex₂]
        "name | phone" "loan.txt" none =
      runExtractors "name | phone" "loan.txt"
        (runOrder [mkPersonalDataExtractor ex₁, mkTabularDataExtractor ex₂]
          "name | phone" none) from rfl, runExtractors_names]
    have hp : personalCanProcess "name | phone" = true := by decide
    have ht : tabularCanProcess "name | phone" = true := by decide
    simp [runOrder, activeExtractors, mkPersonalDataExtractor,
      mkTabularDataExtractor, hp, ht, insortBy, insertOrd, prioLE]

/-- C5 (confirmed): every value entry of the aggregation has
`occurrences` equal to its provenance length and `weightedScore` equal
to its rounded share of the field's total occurrences, entries are
sorted descending by `(occurrences, weightedScore)`, and the John/John/
Jane batch yields exactly the two stated entries in the stated order. -/
theorem C5_aggregation_values :
    (∀ (docs : List (String × Option (List Record))) (field : String)
        (entries : List ValueEntry),
        (field, entries) ∈ createPersonalDataAggregation docs →
        List.Chain' (fun a b => entryBeforeDesc a b = true) entries ∧
        ∀ e ∈ entries,
          e.occurrences = e.instances.length ∧
          e.weightedScore =
            round3 ((e.occurrences : ℚ) / (totalOccurrences entries : ℚ))) ∧
    createPersonalDataAggregation
        [("document1.pdf",
          some [{ field_name := "First name", field_value := "John",
                  confidence := 0.9 }]),
         ("document2.txt",
          some [{ field_name := "First name", field_value := "John",
                  confidence := 0.95 }]),
         ("document3.pdf",
          some [{ field_name := "First name", field_value := "Jane",
                  confidence := 0.92 }])] =
      [("firstName",
        [{ value := "John",
           instances := [{ file := "document1.pdf", confidence := 0.9 },
                         { file := "document2.txt", confidence := 0.95 }],
           occurrences := 2, weightedScore := 667/1000 },
         { value := "Jane",
           instances := [{ file := "document3.pdf", confidence := 0.92 }],
           occurrences := 1, weightedScore := 333/1000 }])] := by
  constructor
  · intro docs field entries hmem
    rcases List.mem_map.mp hmem with ⟨f0, hf0, heq⟩
    have hentries : entries = finalizeField f0.2 :=
      (congrArg Prod.snd heq).symm
    subst hentries
    refine ⟨finalizeField_chain f0.2, fun e he => ?_⟩
    rcases finalizeField_mem f0.2 e he with ⟨v, hv, _, hinst, hocc, hws⟩
    have hv2 : v.2 ≠ [] := buildAggregated_wf docs f0 hf0 v hv
    have hpos : 0 < (f0.2.map fun v => v.2.length).sum := by
      have h1 : 0 < v.2.length := List.length_pos.mpr hv2
      have h2 : v.2.length ≤ (f0.2.map fun v => v.2.length).sum :=
        List.le_sum_of_mem (List.mem_map_of_mem _ hv)
      omega
    refine ⟨by rw [hocc, hinst], ?_⟩
    rw [hws, if_pos hpos, finalizeField_total, hocc]
  · decide

/-- C5 witness: the entry invariants applied to the "John" entry of the
concrete three-document batch. -/
theorem C5_aggregation_values_witness :
    ({ value := "John",
       instances := [{ file := "document1.pdf", confidence := 0.9 },
                     { file := "document2.txt", confidence := 0.95 }],
       occurrences := 2, weightedScore := 667/1000 }
        : ValueEntry).occurrences =
      ({ value := "John",
         instances := [{ file := "document1.pdf", confidence := 0.9 },
                       { file := "document2.txt", confidence := 0.95 }],
         occurrences := 2, weightedScore := 667/1000 }
          : ValueEntry).instances.length :=
  ((C5_aggregation_values.1
      [("document1.pdf",
        some [{ field_name := "First name", field_value := "John",
                confidence := 0.9 }]),
       ("document2.txt",
        some [{ field_name := "First name", field_value := "John",
                confidence := 0.95 }]),
       ("document3.pdf",
        some [{ field_name := "First name", field_value := "Jane",
                confidence := 0.92 }])]
      "firstName"
      [{ value := "John",
         instances := [{ file := "document1.pdf", confidence := 0.9 },
                       { file := "document2.txt", confidence := 0.95 }],
         occurrences := 2, weightedScore := 667/1000 },
       { value := "Jane",
         instances := [{ file := "document3.pdf", confidence := 0.92 }],
         occurrences := 1, weightedScore := 333/1000 }]
      (by decide)).2 _ (by decide)).1

/-- C6 (confirmed): a field name appears in `inconsistencies_found` iff
its entry in the aggregation has at least 2 value entries, every
inconsistency reports at most 3 sample values, and aggregation value
entries are distinct by value. -/
theorem C6_inconsistency_detection :
    (∀ (agg : List (String × List ValueEntry)) (f : String),
        (∃ inc ∈ inconsistenciesFound agg, inc.field = f) ↔
          (∃ p ∈ agg, p.1 = f ∧ 2 ≤ p.2.length)) ∧
    (∀ (agg : List (String × List ValueEntry)) (inc : Inconsistency),
        inc ∈ inconsistenciesFound agg → inc.values.length ≤ 3) ∧
    (∀ (docs : List (String × Option (List Record))) (field : String)
        (entries : List ValueEntry),
        (field, entries) ∈ createPersonalDataAggregation docs →
        (entries.map ValueEntry.value).Nodup) := by
  refine ⟨fun agg f => ?_, fun agg inc hinc => ?_,
    fun docs field entries hmem => ?_⟩
  · constructor
    · rintro ⟨inc, hinc, hf⟩
      rcases List.mem_map.mp hinc with ⟨p, hp, hpinc⟩
      rcases List.mem_filter.mp hp with ⟨hpa, hlen⟩
      refine ⟨p, hpa, ?_, of_decide_eq_true hlen⟩
      rw [← hf, ← hpinc]
    · rintro ⟨p, hp, hpf, hlen⟩
      exact ⟨⟨p.1, p.2.length, (p.2.take 3).map ValueEntry.value⟩,
        List.mem_map.mpr ⟨p, List.mem_filter.mpr
          ⟨hp, decide_eq_true hlen⟩, rfl⟩, hpf⟩
  · rcases List.mem_map.mp hinc with ⟨p, _, hpinc⟩
    rw [← hpinc]
    simp only [List.length_map, List.length_take]
    omega
  · rcases List.mem_map.mp hmem with ⟨f0, hf0, heq⟩
    have hentries : entries = finalizeField f0.2 :=
      (congrArg Prod.snd heq).symm
    subst hentries
    exact (finalizeField_values f0.2).nodup_iff.mpr
      (buildAggregated_nodup docs f0 hf0)

/-- C6 witness: a two-entry field is reported, applied at a concrete
aggregation map. -/
theorem C6_inconsistency_detection_witness :
    ∃ inc ∈ inconsistenciesFound
        [("firstName",
          [{ value := "John", instances := [], occurrences := 0,
             weightedScore := 0 },
           { value := "Jane", instances := [], occurrences := 0,
             weightedScore := 0 }])],
      inc.field = "firstName" :=
  (C6_inconsistency_detection.1
      [("firstName",
        [{ value := "John", instances := [], occurrences := 0,
           weightedScore := 0 },
         { value := "Jane", instances := [], occurrences := 0,
           weightedScore := 0 }])] "firstName").mpr (by decide)

/-- C7 counterexample: the non-value check runs on the raw value before
whitespace collapsing and quote stripping, so `" n/a "` cleans to the
recognized non-value `"n/a"`, and `"\"\""` cleans to the empty string —
refuting "never the empty string and never a recognized non-value". -/
theorem C7_clean_value_counterexample :
    cleanValue " n/a " = "n/a" ∧ "n/a" ∈ NON_VALUES ∧
    cleanValue "\"\"" = "" := by
  decide

/-- C7 (amended): a value is canonicalized to the sentinel exactly when
the raw value, lowercased, is a recognized non-value; otherwise the
value is whitespace-collapsed (the output's whitespace is single spaces,
never two adjacent) and one layer of wrapping double quotes is removed.
The result can still be empty or a recognized non-value when the
non-value was wrapped in whitespace or quotes. -/
theorem C7_clean_value_normalization :
    (∀ v : String,
        lowerString v ∈ NON_VALUES → cleanValue v = "Not found") ∧
    (∀ v : String, spaceNormalized (cleanValue v) = true) ∧
    (∀ v : String, lowerString v ∉ NON_VALUES →
        ((collapseWs v.toList).head? = some '"' ∧
            (collapseWs v.toList).getLast? = some '"' →
          cleanValue v =
            String.mk ((collapseWs v.toList).drop 1).dropLast) ∧
        (¬((collapseWs v.toList).head? = some '"' ∧
            (collapseWs v.toList).getLast? = some '"') →
          cleanValue v = String.mk (collapseWs v.toList))) := by
  have hshape : ∀ v : String, lowerString v ∉ NON_VALUES →
      cleanValue v =
        if (decide ((collapseWs v.toList).head? = some '"') &&
            decide ((collapseWs v.toList).getLast? = some '"')) = true
        then String.mk ((collapseWs v.toList).drop 1).dropLast
        else String.mk (collapseWs v.toList) := by
    intro v h
    have hv : ¬v = "" := by
      intro hv
      rw [hv] at h
      exact h (by decide)
    rw [cleanValue, if_neg (by simp [hv, h])]
  have hnorm : ∀ l : List Char,
      (∀ c ∈ l, isPySpace c = true → c = ' ') → noAdjSpaces l = true →
      spaceNormalized (String.mk l) = true := fun l h1 h2 =>
    spaceNormalized_mk l h1 h2
  refine ⟨fun v h => ?_, fun v => ?_, fun v h => ⟨fun hq => ?_, fun hq => ?_⟩⟩
  · simp [cleanValue, h]
  · by_cases h : lowerString v ∈ NON_VALUES
    · have hnot : cleanValue v = "Not found" := by simp [cleanValue, h]
      rw [hnot]
      decide
    · rw [hshape v h]
      have hall : ∀ c ∈ collapseWs v.toList, isPySpace c = true → c = ' ' :=
        fun c hc => collapseWsAux_space_char false (pyStrip v.toList) c hc
      have hadj : noAdjSpaces (collapseWs v.toList) = true :=
        collapseWsAux_noAdj false (pyStrip v.toList)
      split
      · refine hnorm _ (fun c hc hsp => ?_) ?_
        · exact hall c
            (List.drop_subset 1 _ (List.dropLast_subset _ hc)) hsp
        · rw [List.drop_one]
          exact noAdjSpaces_dropLast _ (noAdjSpaces_tail _ hadj)
      · exact hnorm _ hall hadj
  · have hb : (decide ((collapseWs v.toList).head? = some '"') &&
        decide ((collapseWs v.toList).getLast? = some '"')) = true := by
      simp only [Bool.and_eq_true, decide_eq_true_eq]
      exact ⟨hq.1, hq.2⟩
    rw [hshape v h]
    rw [if_pos hb]
  · have hb : (decide ((collapseWs v.toList).head? = some '"') &&
        decide ((collapseWs v.toList).getLast? = some '"')) ≠ true := by
      intro hb
      rcases Bool.and_eq_true _ _ |>.mp hb with ⟨h1, h2⟩
      exact hq ⟨of_decide_eq_true h1, of_decide_eq_true h2⟩
    rw [hshape v h]
    rw [if_neg hb]

/-- C7 witness: the sentinel branch at `"N/A"` and the quote-stripping
branch at a quoted name. -/
theorem C7_clean_value_normalization_witness :
    cleanValue "N/A" = "Not found" ∧
    cleanValue "\"John  Smith\"" =
      String.mk ((collapseWs "\"John  Smith\"".toList).drop 1).dropLast :=
  ⟨C7_clean_value_normalization.1 "N/A" (by decide),
   (C7_clean_value_normalization.2.2 "\"John  Smith\"" (by decide)).1
     (by decide)⟩

end Agent
